import Mathlib

/-!
Verification model of the AlphaCalc 2.2 reactive value/formula engine
(dist/alphacalc.js).  The core components embedded here are the ones the
specification covers: the value store (`InputManager.inputValues`, modelled as
`Store`), the formula evaluator (`FormulaEngine.evaluate`), the group
aggregator (`GroupManager.updateGroupValue`) and the recompute pass
(`AlphaCalc.calculate`).

Modelling conventions:
- JavaScript numbers are modelled by `JNum`: an exact rational for every
  finite value, plus `nan`, `posInf` and `negInf` for the non-finite values
  that `isFinite` rejects.  Floating-point rounding error, overflow of
  finite arithmetic and the sign of zero are outside the model.
- A formula string is modelled after sanitization/parsing as
  `Option FormulaExpr`: `none` is a formula the host grammar rejects
  (`new Function` throws at construction, caught by `evaluate`), `some e`
  a parsed arithmetic expression over identifiers and literals.  A variable
  lookup that misses the evaluation context is a `ReferenceError`, modelled
  by `Except.error`.
- The DOM-adapter layer (element discovery, rendering, event dispatch on
  widgets) is excluded, exactly as in the specification; an `Element`
  record keeps the data the core reads from a widget: its type, checked
  state, parsed numeric value and min/max constraint attributes.
-/

namespace ACalc

/-- A JavaScript number as the engine observes it: a finite value (kept
exact as a rational) or one of the non-finite values `NaN`, `Infinity`,
`-Infinity`. -/
inductive JNum where
  | fin (q : ℚ)
  | nan
  | posInf
  | negInf
deriving DecidableEq, Repr

/-- Mirror of JavaScript's `isFinite` on a `JNum`. -/
def JNum.isFinite : JNum → Bool
  | .fin _ => true
  | _ => false

/-- JavaScript addition on `JNum` (finite overflow elided). -/
def JNum.add : JNum → JNum → JNum
  | .fin a, .fin b => .fin (a + b)
  | .nan, _ => .nan
  | _, .nan => .nan
  | .posInf, .negInf => .nan
  | .negInf, .posInf => .nan
  | .posInf, _ => .posInf
  | _, .posInf => .posInf
  | .negInf, _ => .negInf
  | _, .negInf => .negInf

/-- JavaScript subtraction on `JNum`. -/
def JNum.sub : JNum → JNum → JNum
  | .fin a, .fin b => .fin (a - b)
  | .nan, _ => .nan
  | _, .nan => .nan
  | .posInf, .posInf => .nan
  | .negInf, .negInf => .nan
  | .posInf, _ => .posInf
  | _, .negInf => .posInf
  | .negInf, _ => .negInf
  | _, .posInf => .negInf

/-- JavaScript multiplication on `JNum`. -/
def JNum.mul : JNum → JNum → JNum
  | .fin a, .fin b => .fin (a * b)
  | .nan, _ => .nan
  | _, .nan => .nan
  | .posInf, .posInf => .posInf
  | .posInf, .negInf => .negInf
  | .negInf, .posInf => .negInf
  | .negInf, .negInf => .posInf
  | .posInf, .fin b => if b = 0 then .nan else if 0 < b then .posInf else .negInf
  | .fin a, .posInf => if a = 0 then .nan else if 0 < a then .posInf else .negInf
  | .negInf, .fin b => if b = 0 then .nan else if 0 < b then .negInf else .posInf
  | .fin a, .negInf => if a = 0 then .nan else if 0 < a then .negInf else .posInf

/-- JavaScript division on `JNum`: division of a nonzero finite value by
zero produces a signed infinity, `0/0` produces `NaN` (sign of zero
elided). -/
def JNum.div : JNum → JNum → JNum
  | .fin a, .fin b =>
      if b = 0 then
        (if a = 0 then .nan else if 0 < a then .posInf else .negInf)
      else .fin (a / b)
  | .nan, _ => .nan
  | _, .nan => .nan
  | .posInf, .posInf => .nan
  | .posInf, .negInf => .nan
  | .negInf, .posInf => .nan
  | .negInf, .negInf => .nan
  | .posInf, .fin b => if 0 ≤ b then .posInf else .negInf
  | .negInf, .fin b => if 0 ≤ b then .negInf else .posInf
  | .fin _, .posInf => .fin 0
  | .fin _, .negInf => .fin 0

/-- JavaScript truthiness of a stored number, as used by the `|| 0`
fallback in `AlphaCalc.getValue`: `0` and `NaN` are falsy, every other
number (including the infinities) is truthy. -/
def jsTruthy : JNum → Bool
  | .fin q => q != 0
  | .nan => false
  | .posInf => true
  | .negInf => true

/-- The value store: `InputManager.inputValues`, a map from cell id to the
currently stored value (`none` when the id is absent from the map). -/
abbrev Store := String → Option JNum

/-- A sanitized formula after parsing by the host arithmetic grammar:
identifiers, numeric literals and the four binary operators the claims
exercise. -/
inductive FormulaExpr where
  | lit (q : ℚ)
  | var (x : String)
  | add (l r : FormulaExpr)
  | sub (l r : FormulaExpr)
  | mul (l r : FormulaExpr)
  | div (l r : FormulaExpr)
deriving DecidableEq, Repr

/-- The identifiers a formula references (its implicit dependency set). -/
def exprVars : FormulaExpr → List String
  | .lit _ => []
  | .var x => [x]
  | .add l r => exprVars l ++ exprVars r
  | .sub l r => exprVars l ++ exprVars r
  | .mul l r => exprVars l ++ exprVars r
  | .div l r => exprVars l ++ exprVars r

/-- Evaluation of a parsed formula against a context (the keys of the
context object are bound as identifiers).  Referencing an identifier the
context does not bind is a runtime `ReferenceError`, modelled as
`Except.error`. -/
def evalExpr : FormulaExpr → Store → Except Unit JNum
  | .lit q, _ => .ok (.fin q)
  | .var x, ctx =>
      match ctx x with
      | some v => .ok v
      | none => .error ()
  | .add l r, ctx =>
      match evalExpr l ctx with
      | .error u => .error u
      | .ok a =>
          match evalExpr r ctx with
          | .error u => .error u
          | .ok b => .ok (JNum.add a b)
  | .sub l r, ctx =>
      match evalExpr l ctx with
      | .error u => .error u
      | .ok a =>
          match evalExpr r ctx with
          | .error u => .error u
          | .ok b => .ok (JNum.sub a b)
  | .mul l r, ctx =>
      match evalExpr l ctx with
      | .error u => .error u
      | .ok a =>
          match evalExpr r ctx with
          | .error u => .error u
          | .ok b => .ok (JNum.mul a b)
  | .div l r, ctx =>
      match evalExpr l ctx with
      | .error u => .error u
      | .ok a =>
          match evalExpr r ctx with
          | .error u => .error u
          | .ok b => .ok (JNum.div a b)

namespace Util

/-- `parseFloat(result.toFixed(d))`: round to `d` decimal places, ties
away from the smaller value, exactly the idealized `toFixed` rule. -/
def roundTo (d : Nat) (q : ℚ) : ℚ :=
  ((round (q * (10 : ℚ) ^ d) : ℤ) : ℚ) / (10 : ℚ) ^ d

end Util

/-- `DEFAULT_CONFIG.decimal` of dist/alphacalc.js. -/
structure DecimalConfig where
  input : Nat
  display : Nat
deriving DecidableEq, Repr

/-- `DEFAULT_CONFIG.features` of dist/alphacalc.js (the options the core
consumes). -/
structure FeaturesConfig where
  autoCalculate : Bool
  debounceTime : Nat
deriving DecidableEq, Repr

/-- The configuration surface of an engine instance. -/
structure Config where
  decimal : DecimalConfig
  features : FeaturesConfig
deriving DecidableEq, Repr

/-- `DEFAULT_CONFIG` of dist/alphacalc.js: input precision 4, display
precision 2, auto-calculate on, 50 ms debounce. -/
def DEFAULT_CONFIG : Config :=
  { decimal := { input := 4, display := 2 },
    features := { autoCalculate := true, debounceTime := 50 } }

/-- `FormulaEngine.evaluate`: a parse failure (`none`, `new Function`
threw) yields 0; a runtime failure during evaluation yields 0; a
non-finite result yields 0; a finite result is rounded to the configured
input precision. -/
def FormulaEngine.evaluate (decimalInput : Nat) (parsed : Option FormulaExpr)
    (context : Store) : ℚ :=
  match parsed with
  | none => 0
  | some e =>
      match evalExpr e context with
      | .error _ => 0
      | .ok result =>
          match result with
          | .fin q => Util.roundTo decimalInput q
          | _ => 0

/-- What a store write returns to the rest of the engine: the updated
store, and the payload of the `value:changed` event emitted for it. -/
structure SetResult where
  store : Store
  emitted : String × JNum

/-- Point update of the store map (`inputValues.set`). -/
def setStore (σ : Store) (cellId : String) (v : JNum) : Store :=
  fun x => if x = cellId then some v else σ x

/-- `InputManager.setValue`: stores the supplied value under the id exactly
as given, then emits `value:changed { cellId, value }` with the same
value.  (The DOM mirroring of the value onto a bound widget is adapter
behavior and outside the core model.) -/
def InputManager.setValue (σ : Store) (cellId : String) (value : JNum) : SetResult :=
  { store := setStore σ cellId value, emitted := (cellId, value) }

/-- `AlphaCalc.setValue`, the public API entry: delegates to
`InputManager.setValue`. -/
def AlphaCalc.setValue (σ : Store) (cellId : String) (value : JNum) : SetResult :=
  InputManager.setValue σ cellId value

/-- `AlphaCalc.getValue`: `this.inputManager.inputValues.get(cellId) || 0`. -/
def AlphaCalc.getValue (σ : Store) (cellId : String) : JNum :=
  match σ cellId with
  | none => .fin 0
  | some v => if jsTruthy v then v else .fin 0

/-- The element kinds `InputManager.getElementType` distinguishes. -/
inductive ElementType where
  | inputEl
  | selectEl
  | radioEl
  | checkboxEl
deriving DecidableEq, Repr

/-- The data the core reads from a registered widget: its cell id, element
type, `name` attribute (radio grouping), checked state, the parsed numeric
value of its effective value attribute, and the optional
`data-alphacalc-min` / `data-alphacalc-max` constraints. -/
structure Element where
  cellId : String
  etype : ElementType
  name : String
  checked : Bool
  domValue : ℚ
  minAttr : Option ℚ
  maxAttr : Option ℚ
deriving DecidableEq, Repr

/-- `InputManager.getToggleValue`: an unchecked radio/checkbox reads as 0,
a checked one as its (custom or native) value. -/
def InputManager.getToggleValue (e : Element) : ℚ :=
  if e.checked = false then 0 else e.domValue

/-- `InputManager.clampValue`: apply the min constraint, then the max
constraint, each only when the attribute parses to a number. -/
def InputManager.clampValue (value : ℚ) (e : Element) : ℚ :=
  let afterMin :=
    match e.minAttr with
    | some m => max value m
    | none => value
  match e.maxAttr with
  | some m => min afterMin m
  | none => afterMin

/-- `InputManager.getElementValue`: type-specific read (select reads are
abstracted to the already-parsed `domValue`), then min/max clamping. -/
def InputManager.getElementValue (e : Element) : ℚ :=
  InputManager.clampValue
    (match e.etype with
     | .radioEl => InputManager.getToggleValue e
     | .checkboxEl => InputManager.getToggleValue e
     | _ => e.domValue)
    e

/-- A registered group: its name, member elements, and the radio-group
flag computed at creation. -/
structure Group where
  name : String
  elements : List Element
deriving DecidableEq, Repr

/-- `GroupManager.createGroup`'s radio-group test: every member is a radio
and they all share the first member's `name` attribute. -/
def GroupManager.isRadioGroupOf (elements : List Element) : Bool :=
  let allRadios := elements.all (fun e => e.etype == ElementType.radioEl)
  let sameName :=
    allRadios &&
      (match elements with
       | [] => true
       | h :: _ => elements.all (fun e => e.name == h.name))
  allRadios && sameName

/-- Whether a group is treated as a radio group by `updateGroupValue`. -/
def Group.isRadioGroup (g : Group) : Bool :=
  GroupManager.isRadioGroupOf g.elements

/-- One step of the additive reduce in `GroupManager.updateGroupValue`:
toggle-type members are added only when checked, any other member is
always added. -/
def GroupManager.additiveStep (sum : ℚ) (e : Element) : ℚ :=
  match e.etype with
  | .radioEl => if e.checked then sum + InputManager.getElementValue e else sum
  | .checkboxEl => if e.checked then sum + InputManager.getElementValue e else sum
  | _ => sum + InputManager.getElementValue e

/-- The aggregate `GroupManager.updateGroupValue` computes: for a radio
group, the value of the checked member (0 when none is checked); otherwise
the additive reduce over the members. -/
def GroupManager.groupComputeValue (g : Group) : ℚ :=
  if g.isRadioGroup then
    match g.elements.find? (fun e => e.checked) with
    | some checkedRadio => InputManager.getElementValue checkedRadio
    | none => 0
  else
    g.elements.foldl GroupManager.additiveStep 0

/-- `GroupManager.updateGroupValue`'s effect on the store: write the
recomputed aggregate under the group name and emit `value:changed` for
it. -/
def GroupManager.updateGroupValue (g : Group) (σ : Store) : SetResult :=
  { store := setStore σ g.name (.fin (GroupManager.groupComputeValue g)),
    emitted := (g.name, .fin (GroupManager.groupComputeValue g)) }

/-- A formula cell as `AlphaCalc.calculate` processes it: the cell id of
the registered formula input, and the parsed formula (`none` when the
attribute holds no usable formula, in which case the pass skips the
cell). -/
structure FormulaCell where
  cellId : String
  formula : Option FormulaExpr
deriving DecidableEq, Repr

/-- The identifiers a formula cell's expression references. -/
def cellVars (c : FormulaCell) : List String :=
  match c.formula with
  | none => []
  | some e => exprVars e

/-- One iteration of the formula loop in `AlphaCalc.calculate`: evaluate
the cell's formula against the live store and write the result back via
`InputManager.setValue`; a cell with no formula is skipped. -/
def calcStep (decimalInput : Nat) (σ : Store) (c : FormulaCell) : Store :=
  match c.formula with
  | none => σ
  | some e =>
      (InputManager.setValue σ c.cellId
        (.fin (FormulaEngine.evaluate decimalInput (some e) σ))).store

/-- `AlphaCalc.calculate`'s formula pass: process the formula cells in
registration order, each against the store as left by the previous
steps of the same pass. -/
def AlphaCalc.calculate (decimalInput : Nat) (cells : List FormulaCell)
    (σ : Store) : Store :=
  cells.foldl (calcStep decimalInput) σ

/-- The registration-order condition under which the recompute pass is
idempotent: each formula references no identifier that is the cell id of
itself or of any formula cell at or after it in registration order. -/
def goodOrder : List FormulaCell → Prop
  | [] => True
  | c :: rest =>
      (∀ v ∈ cellVars c, v ∉ (c :: rest).map FormulaCell.cellId) ∧ goodOrder rest

instance goodOrderDecidable : (cells : List FormulaCell) → Decidable (goodOrder cells)
  | [] => .isTrue True.intro
  | c :: rest =>
      have : Decidable (goodOrder rest) := goodOrderDecidable rest
      decidable_of_iff
        ((∀ v ∈ cellVars c, v ∉ (c :: rest).map FormulaCell.cellId) ∧ goodOrder rest)
        Iff.rfl

/-- The operations that write into the value store. -/
inductive Op where
  | setOp (cellId : String) (value : JNum)
  | calcOp (cells : List FormulaCell)
  | groupOp (g : Group)

/-- Effect of one operation on the store. -/
def applyOp (decimalInput : Nat) (σ : Store) : Op → Store
  | .setOp cellId v => (InputManager.setValue σ cellId v).store
  | .calcOp cells => AlphaCalc.calculate decimalInput cells σ
  | .groupOp g => (GroupManager.updateGroupValue g σ).store

/-- Run a sequence of store-writing operations. -/
def runOps (decimalInput : Nat) (σ : Store) (ops : List Op) : Store :=
  ops.foldl (applyOp decimalInput) σ

/-- Every value present in the store is finite. -/
def allFinite (σ : Store) : Prop :=
  ∀ cellId v, σ cellId = some v → v.isFinite = true

/-- Whether an operation's payload is finite (only `setOp` carries an
arbitrary caller-supplied value). -/
def finiteArg : Op → Bool
  | .setOp _ v => v.isFinite
  | _ => true

/-- The per-member contribution of the additive aggregation rule as the
specification words it: a toggle-type member contributes its value only
when active, any other member always contributes its current value. -/
def additiveContrib (e : Element) : ℚ :=
  match e.etype with
  | .radioEl => if e.checked then InputManager.getElementValue e else 0
  | .checkboxEl => if e.checked then InputManager.getElementValue e else 0
  | _ => InputManager.getElementValue e

/-- An empty value store. -/
def emptyStore : Store := fun _ => none

/-- Context binding exactly the identifiers `a` and `b`. -/
def ctxAB (a b : ℚ) : Store :=
  fun s => if s = "a" then some (.fin a) else if s = "b" then some (.fin b) else none

/-- Formula cell F1 = `"x+1"`. -/
def f1Cell : FormulaCell :=
  { cellId := "F1", formula := some (.add (.var ("x")) (.lit 1)) }

/-- Formula cell F2 = `"F1*2"`, registered after `f1Cell`. -/
def f2Cell : FormulaCell :=
  { cellId := "F2", formula := some (.mul (.var ("F1")) (.lit 2)) }

/-- Circular formula cells: F1 = `"F2+1"` registered before F2 = `"F1+1"`. -/
def cycCells : List FormulaCell :=
  [ { cellId := "F1", formula := some (.add (.var ("F2")) (.lit 1)) },
    { cellId := "F2", formula := some (.add (.var ("F1")) (.lit 1)) } ]

/-- Store holding 0 for both circular formula cells. -/
def cycStore : Store :=
  fun s => if s = "F1" then some (.fin 0) else if s = "F2" then some (.fin 0) else none

/-- A text input with a min constraint of 10. -/
def xMinElem : Element :=
  { cellId := "x", etype := .inputEl, name := "x", checked := false,
    domValue := 0, minAttr := some 10, maxAttr := none }

/-- A text input constrained to the interval [0, 10]. -/
def boundedElem : Element :=
  { cellId := "y", etype := .inputEl, name := "y", checked := false,
    domValue := 0, minAttr := some 0, maxAttr := some 10 }

/-- A checked checkbox member with value 5. -/
def chk5 : Element :=
  { cellId := "m1", etype := .checkboxEl, name := "m1", checked := true,
    domValue := 5, minAttr := none, maxAttr := none }

/-- An unchecked checkbox member with value 10. -/
def chk10off : Element :=
  { cellId := "m2", etype := .checkboxEl, name := "m2", checked := false,
    domValue := 10, minAttr := none, maxAttr := none }

/-- The same member after being toggled active. -/
def chk10on : Element := { chk10off with checked := true }

/-- Additive group with members valued 5 (active) and 10 (inactive). -/
def gDemo : Group := { name := "g", elements := [chk5, chk10off] }

/-- The same group after the inactive member is toggled active. -/
def gDemoOn : Group := { name := "g", elements := [chk5, chk10on] }

/-- Store in which the formula cell F1's last evaluation produced 7. -/
def formulaStore : Store :=
  fun s => if s = "F1" then some (.fin 7) else none

/-- Store binding only `x` to 3. -/
def xStore : Store :=
  fun s => if s = "x" then some (.fin 3) else none

/-- Store exercising the `getValue` fallbacks: `a` holds NaN, `c` holds 5. -/
def c10Store : Store :=
  fun s => if s = "a" then some .nan else if s = "c" then some (.fin 5) else none

/-- The operation sequence used to witness the finiteness invariant. -/
def finiteOps : List Op :=
  [ Op.setOp ("y") (.fin 3), Op.calcOp [f1Cell, f2Cell], Op.groupOp gDemo ]

/-- Evaluation of a formula only depends on the store at the identifiers
the formula references. -/
theorem evalExpr_congr (e : FormulaExpr) (σ τ : Store)
    (h : ∀ v ∈ exprVars e, σ v = τ v) : evalExpr e σ = evalExpr e τ := by
  induction e with
  | lit q => rfl
  | var x =>
      have hx : σ x = τ x := h x (by simp [exprVars])
      simp [evalExpr, hx]
  | add l r ihl ihr =>
      have hl := ihl (fun v hv => h v (by simp [exprVars, hv]))
      have hr := ihr (fun v hv => h v (by simp [exprVars, hv]))
      simp only [evalExpr, hl, hr]
  | sub l r ihl ihr =>
      have hl := ihl (fun v hv => h v (by simp [exprVars, hv]))
      have hr := ihr (fun v hv => h v (by simp [exprVars, hv]))
      simp only [evalExpr, hl, hr]
  | mul l r ihl ihr =>
      have hl := ihl (fun v hv => h v (by simp [exprVars, hv]))
      have hr := ihr (fun v hv => h v (by simp [exprVars, hv]))
      simp only [evalExpr, hl, hr]
  | div l r ihl ihr =>
      have hl := ihl (fun v hv => h v (by simp [exprVars, hv]))
      have hr := ihr (fun v hv => h v (by simp [exprVars, hv]))
      simp only [evalExpr, hl, hr]

/-- `FormulaEngine.evaluate` only depends on the referenced identifiers. -/
theorem evaluate_congr (d : Nat) (e : FormulaExpr) (σ τ : Store)
    (h : ∀ v ∈ exprVars e, σ v = τ v) :
    FormulaEngine.evaluate d (some e) σ = FormulaEngine.evaluate d (some e) τ := by
  simp only [FormulaEngine.evaluate, evalExpr_congr e σ τ h]

/-- The formula pass writes only to the ids of its formula cells. -/
theorem calculate_unwritten (d : Nat) (cells : List FormulaCell) :
    ∀ (σ : Store) (x : String), x ∉ cells.map FormulaCell.cellId →
      AlphaCalc.calculate d cells σ x = σ x := by
  induction cells with
  | nil => intro σ x _; rfl
  | cons c rest ih =>
      intro σ x hx
      simp only [List.map_cons, List.mem_cons, not_or] at hx
      obtain ⟨hx1, hx2⟩ := hx
      have hstep : calcStep d σ c x = σ x := by
        cases hf : c.formula with
        | none => simp [calcStep, hf]
        | some e => simp [calcStep, hf, InputManager.setValue, setStore, hx1]
      calc AlphaCalc.calculate d (c :: rest) σ x
          = AlphaCalc.calculate d rest (calcStep d σ c) x := rfl
        _ = calcStep d σ c x := ih (calcStep d σ c) x hx2
        _ = σ x := hstep

/-- The formula pass is idempotent when the formula ids are distinct and
each formula references no id of a formula cell at or after its own
position. -/
theorem calculate_idem (d : Nat) (cells : List FormulaCell) :
    ∀ σ : Store, (cells.map FormulaCell.cellId).Nodup → goodOrder cells →
      AlphaCalc.calculate d cells (AlphaCalc.calculate d cells σ)
        = AlphaCalc.calculate d cells σ := by
  induction cells with
  | nil => intro σ _ _; rfl
  | cons c rest ih =>
      intro σ hnd hgo
      simp only [List.map_cons, List.nodup_cons] at hnd
      obtain ⟨hcid, hndrest⟩ := hnd
      obtain ⟨hvars, hrest⟩ := hgo
      cases hf : c.formula with
      | none =>
          have hstep : ∀ τ : Store, calcStep d τ c = τ := by
            intro τ; simp [calcStep, hf]
          calc AlphaCalc.calculate d (c :: rest)
                  (AlphaCalc.calculate d (c :: rest) σ)
              = AlphaCalc.calculate d rest
                  (calcStep d (AlphaCalc.calculate d rest (calcStep d σ c)) c) := rfl
            _ = AlphaCalc.calculate d rest
                  (AlphaCalc.calculate d rest σ) := by rw [hstep, hstep]
            _ = AlphaCalc.calculate d rest σ := ih σ hndrest hrest
            _ = AlphaCalc.calculate d (c :: rest) σ := by
                  show AlphaCalc.calculate d rest σ
                      = AlphaCalc.calculate d rest (calcStep d σ c)
                  rw [hstep σ]
      | some e =>
          have hcv : cellVars c = exprVars e := by simp [cellVars, hf]
          have hstep1 : calcStep d σ c
              = setStore σ c.cellId (.fin (FormulaEngine.evaluate d (some e) σ)) := by
            simp [calcStep, hf, InputManager.setValue]
          have hpass1 : AlphaCalc.calculate d (c :: rest) σ
              = AlphaCalc.calculate d rest
                  (setStore σ c.cellId (.fin (FormulaEngine.evaluate d (some e) σ))) := by
            calc AlphaCalc.calculate d (c :: rest) σ
                = AlphaCalc.calculate d rest (calcStep d σ c) := rfl
              _ = _ := by rw [hstep1]
          set r : ℚ := FormulaEngine.evaluate d (some e) σ with hr
          set σ1 : Store := setStore σ c.cellId (.fin r) with hσ1
          set om : Store := AlphaCalc.calculate d rest σ1 with hom
          have hagree : ∀ v ∈ exprVars e, om v = σ v := by
            intro v hv
            have hvnot : v ∉ (c :: rest).map FormulaCell.cellId :=
              hvars v (by rw [hcv]; exact hv)
            simp only [List.map_cons, List.mem_cons, not_or] at hvnot
            obtain ⟨hv1, hv2⟩ := hvnot
            calc om v = σ1 v := calculate_unwritten d rest σ1 v hv2
              _ = σ v := by simp [hσ1, setStore, hv1]
          have heval : FormulaEngine.evaluate d (some e) om = r := by
            rw [hr]; exact evaluate_congr d e om σ hagree
          have homc : om c.cellId = some (.fin r) := by
            calc om c.cellId = σ1 c.cellId := calculate_unwritten d rest σ1 c.cellId hcid
              _ = some (.fin r) := by simp [hσ1, setStore]
          have hwrite : setStore om c.cellId (.fin r) = om := by
            funext x
            by_cases hx : x = c.cellId
            · rw [hx]; simp only [setStore, if_pos rfl]; exact homc.symm
            · simp [setStore, hx]
          have hstep2 : calcStep d om c = om := by
            rw [calcStep]
            simp only [hf, InputManager.setValue, heval]
            exact hwrite
          calc AlphaCalc.calculate d (c :: rest)
                  (AlphaCalc.calculate d (c :: rest) σ)
              = AlphaCalc.calculate d (c :: rest) om := by rw [hpass1]
            _ = AlphaCalc.calculate d rest (calcStep d om c) := rfl
            _ = AlphaCalc.calculate d rest om := by rw [hstep2]
            _ = AlphaCalc.calculate d rest (AlphaCalc.calculate d rest σ1) := by rw [hom]
            _ = AlphaCalc.calculate d rest σ1 := ih σ1 hndrest hrest
            _ = AlphaCalc.calculate d (c :: rest) σ := hpass1.symm

/-- The additive reduce equals the sum of the per-member contributions. -/
theorem foldl_additiveStep (l : List Element) :
    ∀ s : ℚ, l.foldl GroupManager.additiveStep s = s + (l.map additiveContrib).sum := by
  induction l with
  | nil => intro s; simp
  | cons e rest ih =>
      intro s
      have hstep : GroupManager.additiveStep s e = s + additiveContrib e := by
        cases he : e.etype <;>
          simp [GroupManager.additiveStep, additiveContrib, he] <;>
          by_cases hc : e.checked <;> simp [hc]
      calc (e :: rest).foldl GroupManager.additiveStep s
          = rest.foldl GroupManager.additiveStep (GroupManager.additiveStep s e) := rfl
        _ = GroupManager.additiveStep s e + (rest.map additiveContrib).sum := ih _
        _ = s + (additiveContrib e + (rest.map additiveContrib).sum) := by
              rw [hstep]; ring
        _ = s + ((e :: rest).map additiveContrib).sum := by simp

/-- A store write of a finite value preserves store-wide finiteness. -/
theorem allFinite_setStore (σ : Store) (id0 : String) (v : JNum)
    (hσ : allFinite σ) (hv : v.isFinite = true) :
    allFinite (setStore σ id0 v) := by
  intro x w hw
  by_cases hx : x = id0
  · simp only [setStore, if_pos hx, Option.some.injEq] at hw
    rw [← hw]; exact hv
  · simp only [setStore, if_neg hx] at hw
    exact hσ x w hw

/-- The formula pass writes only finite values, so it preserves
store-wide finiteness. -/
theorem allFinite_calculate (d : Nat) (cells : List FormulaCell) :
    ∀ σ : Store, allFinite σ → allFinite (AlphaCalc.calculate d cells σ) := by
  induction cells with
  | nil => intro σ h; exact h
  | cons c rest ih =>
      intro σ h
      have hstep : allFinite (calcStep d σ c) := by
        cases hf : c.formula with
        | none => simpa [calcStep, hf] using h
        | some e =>
            have := allFinite_setStore σ c.cellId
              (.fin (FormulaEngine.evaluate d (some e) σ)) h rfl
            simpa [calcStep, hf, InputManager.setValue] using this
      exact ih (calcStep d σ c) hstep

/-- C1: for every pair of finite numbers `a` and `b`, evaluating the
formula `"a+b"` with a context binding `a` and `b` returns the sum
`a + b` rounded to the configured input decimal precision, which defaults
to 4 decimal places. -/
theorem c1_add_formula_rounded (a b : ℚ) :
    FormulaEngine.evaluate DEFAULT_CONFIG.decimal.input
        (some (.add (.var ("a")) (.var ("b")))) (ctxAB a b)
      = Util.roundTo 4 (a + b) := by
  simp [FormulaEngine.evaluate, evalExpr, ctxAB, JNum.add, DEFAULT_CONFIG]

/-- C2: the formula evaluator is a total function into the finite
rationals — no failure escapes it.  A parse failure yields 0, a runtime
evaluation failure yields 0, a non-finite result yields 0, and in
particular the formula `"1/0"` (whose value is `Infinity`) yields 0. -/
theorem c2_evaluate_total_safe :
    (∀ (d : Nat) (ctx : Store), FormulaEngine.evaluate d none ctx = 0)
    ∧ (∀ (d : Nat) (e : FormulaExpr) (ctx : Store), evalExpr e ctx = .error () →
        FormulaEngine.evaluate d (some e) ctx = 0)
    ∧ (∀ (d : Nat) (e : FormulaExpr) (ctx : Store) (r : JNum),
        evalExpr e ctx = .ok r → r.isFinite = false →
        FormulaEngine.evaluate d (some e) ctx = 0)
    ∧ (∀ (d : Nat) (ctx : Store),
        FormulaEngine.evaluate d (some (.div (.lit 1) (.lit 0))) ctx = 0) := by
  refine ⟨fun d ctx => rfl, ?_, ?_, ?_⟩
  · intro d e ctx h
    simp [FormulaEngine.evaluate, h]
  · intro d e ctx r h hfin
    cases r <;> simp_all [FormulaEngine.evaluate, JNum.isFinite]
  · intro d ctx
    simp [FormulaEngine.evaluate, evalExpr, JNum.div]

/-- Witness for C2: a formula referencing an unbound identifier (a runtime
`ReferenceError`) evaluates to 0, and `"1/0"` evaluates to 0. -/
theorem c2_evaluate_total_safe_witness :
    FormulaEngine.evaluate 4 (some (.var ("u"))) emptyStore = 0
    ∧ FormulaEngine.evaluate 4 (some (.div (.lit 1) (.lit 0))) emptyStore = 0 :=
  ⟨c2_evaluate_total_safe.2.1 4 (.var ("u")) emptyStore rfl,
   c2_evaluate_total_safe.2.2.2 4 emptyStore⟩

/-- C10: `getValue` never returns NaN — a stored NaN or an absent id
yields 0 via the `|| 0` coercion, and any other stored value is returned
as stored. -/
theorem c10_getvalue_never_nan (σ : Store) (cellId : String) :
    AlphaCalc.getValue σ cellId ≠ .nan
    ∧ (σ cellId = none → AlphaCalc.getValue σ cellId = .fin 0)
    ∧ (σ cellId = some .nan → AlphaCalc.getValue σ cellId = .fin 0)
    ∧ (∀ v, σ cellId = some v → v ≠ .nan → AlphaCalc.getValue σ cellId = v) := by
  refine ⟨?_, ?_, ?_, ?_⟩
  · cases h : σ cellId with
    | none => simp [AlphaCalc.getValue, h]
    | some v =>
        cases v with
        | fin q => by_cases hq : q = 0 <;> simp [AlphaCalc.getValue, h, jsTruthy, hq]
        | nan => simp [AlphaCalc.getValue, h, jsTruthy]
        | posInf => simp [AlphaCalc.getValue, h, jsTruthy]
        | negInf => simp [AlphaCalc.getValue, h, jsTruthy]
  · intro h; simp [AlphaCalc.getValue, h]
  · intro h; simp [AlphaCalc.getValue, h, jsTruthy]
  · intro v h hv
    cases v with
    | fin q =>
        by_cases hq : q = 0 <;> simp [AlphaCalc.getValue, h, jsTruthy, hq]
    | nan => exact absurd rfl hv
    | posInf => simp [AlphaCalc.getValue, h, jsTruthy]
    | negInf => simp [AlphaCalc.getValue, h, jsTruthy]

/-- Witness for C10: on a concrete store, a NaN entry reads as 0 and a
finite entry reads back unchanged. -/
theorem c10_getvalue_never_nan_witness :
    AlphaCalc.getValue c10Store ("a") = .fin 0
    ∧ AlphaCalc.getValue c10Store ("c") = .fin 5 :=
  ⟨(c10_getvalue_never_nan c10Store ("a")).2.2.1 rfl,
   (c10_getvalue_never_nan c10Store ("c")).2.2.2 (.fin 5) rfl (by decide)⟩

/-- C3 counterexample: the claim that `set` clamps against min/max before
storing and emitting is false.  For the cell `x`, whose element carries
`min = 10`, `setValue` with the value 5 stores 5 and emits 5, while
clamping 5 against the element yields 10 — the stored and emitted value
lies below the constraint interval. -/
theorem c3_set_clamps_counterexample :
    (InputManager.setValue emptyStore ("x") (.fin 5)).store ("x") = some (.fin 5)
    ∧ (InputManager.setValue emptyStore ("x") (.fin 5)).emitted = (("x"), .fin 5)
    ∧ xMinElem.minAttr = some 10
    ∧ InputManager.clampValue 5 xMinElem = 10
    ∧ ¬ ((10 : ℚ) ≤ 5) := by
  refine ⟨rfl, rfl, rfl, by decide, by norm_num⟩

/-- C3 (amended): `setValue` stores the supplied value unchanged and emits
the `value:changed` event with that same unclamped value; min/max
constraints are applied only on the element-read path, where `clampValue`
does return a value inside `[lo, hi]` whenever `lo ≤ hi`. -/
theorem c3_set_stores_raw_clamp_on_read (σ : Store) (cellId : String)
    (value : JNum) (w lo hi : ℚ) (e : Element)
    (hlo : e.minAttr = some lo) (hhi : e.maxAttr = some hi) (hle : lo ≤ hi) :
    (InputManager.setValue σ cellId value).store cellId = some value
    ∧ (InputManager.setValue σ cellId value).emitted = (cellId, value)
    ∧ lo ≤ InputManager.clampValue w e
    ∧ InputManager.clampValue w e ≤ hi := by
  refine ⟨by simp [InputManager.setValue, setStore], rfl, ?_, ?_⟩
  · simp only [InputManager.clampValue, hlo, hhi]
    exact le_min (le_max_right w lo) hle
  · simp only [InputManager.clampValue, hlo, hhi]
    exact min_le_right _ _

/-- Witness for the amended C3 on concrete data: storing 5 under `x`
keeps 5, and clamping 42 against the `[0, 10]` element stays in range. -/
theorem c3_set_stores_raw_clamp_on_read_witness :
    (InputManager.setValue emptyStore ("x") (.fin 5)).store ("x") = some (.fin 5)
    ∧ (InputManager.setValue emptyStore ("x") (.fin 5)).emitted = (("x"), .fin 5)
    ∧ (0 : ℚ) ≤ InputManager.clampValue 42 boundedElem
    ∧ InputManager.clampValue 42 boundedElem ≤ 10 :=
  c3_set_stores_raw_clamp_on_read emptyStore ("x") (.fin 5) 42 0 10 boundedElem
    rfl rfl (by norm_num)

/-- C4 counterexample: `setValue` on a formula cell is not a no-op.  With
the formula cell `F1` (whose last evaluation produced 7) the call
`setValue("F1", 99)` makes a subsequent `getValue` return 99, not 7. -/
theorem c4_formula_setvalue_noop_counterexample :
    f1Cell.cellId = "F1"
    ∧ AlphaCalc.getValue formulaStore ("F1") = .fin 7
    ∧ AlphaCalc.getValue
        ((AlphaCalc.setValue formulaStore ("F1") (.fin 99)).store) ("F1") = .fin 99
    ∧ JNum.fin 99 ≠ JNum.fin 7 := by
  refine ⟨rfl, by decide, by decide, by decide⟩

/-- C4 (amended): `setValue` overwrites the stored value of every cell id,
formula cells included; a subsequent `getValue` observes the newly set
value (the last evaluation's value returns only at the next recompute
pass). -/
theorem c4_setvalue_overwrites_any_cell (σ : Store) (cellId : String) (q : ℚ) :
    AlphaCalc.getValue ((AlphaCalc.setValue σ cellId (.fin q)).store) cellId = .fin q := by
  by_cases hq : q = 0 <;>
    simp [AlphaCalc.setValue, InputManager.setValue, setStore,
      AlphaCalc.getValue, jsTruthy, hq]

/-- C5 counterexample: the store entry under a group's name is not always
the recomputed aggregate.  After `updateGroupValue` stores 15 for the
group `g`, the public `setValue("g", 100)` overwrites the aggregate with
100 ≠ 15 and no recomputation intervenes. -/
theorem c5_group_never_set_directly_counterexample :
    GroupManager.groupComputeValue gDemoOn = 15
    ∧ (AlphaCalc.setValue
          ((GroupManager.updateGroupValue gDemoOn emptyStore).store)
          ("g") (.fin 100)).store ("g") = some (.fin 100)
    ∧ (100 : ℚ) ≠ 15 := by
  refine ⟨?_, by decide, by norm_num⟩
  norm_num [GroupManager.groupComputeValue, Group.isRadioGroup,
    GroupManager.isRadioGroupOf, gDemoOn, chk5, chk10on, chk10off,
    GroupManager.additiveStep, InputManager.getElementValue,
    InputManager.getToggleValue, InputManager.clampValue]
  decide

/-- C5 (amended): `updateGroupValue` always stores the aggregate
recomputed as a pure function of the current member values, but the
public `setValue` applied to the group's name overwrites that store entry
with the supplied value (only the setter-element path special-cases group
names). -/
theorem c5_group_update_pure_but_settable :
    (∀ (g : Group) (σ : Store),
        (GroupManager.updateGroupValue g σ).store g.name
          = some (.fin (GroupManager.groupComputeValue g)))
    ∧ (∀ (σ : Store) (cellId : String) (value : JNum),
        (AlphaCalc.setValue σ cellId value).store cellId = some value) := by
  constructor
  · intro g σ; simp [GroupManager.updateGroupValue, setStore]
  · intro σ cellId value
    simp [AlphaCalc.setValue, InputManager.setValue, setStore]

/-- C6 counterexample: the store can hold a non-finite value.  A
programmatic `setValue` with `NaN` stores `NaN` unchanged, violating the
finiteness invariant. -/
theorem c6_all_values_finite_counterexample :
    (runOps 4 emptyStore [Op.setOp ("x") .nan]) ("x") = some .nan
    ∧ ¬ allFinite (runOps 4 emptyStore [Op.setOp ("x") .nan]) := by
  constructor
  · rfl
  · intro h
    have h5 := h ("x") .nan rfl
    simp [JNum.isFinite] at h5

/-- C6 (amended): every value written by the formula pass and the group
aggregator is finite, and after any sequence of operations whose
programmatic `setValue` arguments are all finite, every value held in the
store is finite; `setValue` itself stores its argument unchanged, so a
non-finite argument breaks the invariant. -/
theorem c6_store_finite_under_finite_sets (d : Nat) (ops : List Op) :
    ∀ σ : Store, allFinite σ → ops.all finiteArg = true →
      allFinite (runOps d σ ops) := by
  induction ops with
  | nil => intro σ h _; exact h
  | cons op rest ih =>
      intro σ h hops
      simp only [List.all_cons, Bool.and_eq_true] at hops
      obtain ⟨hop, hrest⟩ := hops
      have hnext : allFinite (applyOp d σ op) := by
        cases op with
        | setOp cellId v =>
            exact allFinite_setStore σ cellId v h (by simpa [finiteArg] using hop)
        | calcOp cells => exact allFinite_calculate d cells σ h
        | groupOp g => exact allFinite_setStore σ g.name _ h rfl
      exact ih (applyOp d σ op) hnext hrest

/-- Witness for the amended C6: a concrete sequence of a finite set, a
formula pass and a group update keeps the whole store finite. -/
theorem c6_store_finite_under_finite_sets_witness :
    allFinite (runOps 4 emptyStore finiteOps) :=
  c6_store_finite_under_finite_sets 4 finiteOps emptyStore
    (fun cellId v h => Option.noConfusion h) (by decide)

/-- C7: for every additive (non-radio) group, the aggregate is the sum of
per-member contributions in which a toggle-type member counts only when
active and any other member always counts; concretely, members valued
5 (active) and 10 (inactive) aggregate to 5, and activating the inactive
member changes the aggregate to 15. -/
theorem c7_additive_group_sum :
    (∀ g : Group, g.isRadioGroup = false →
        GroupManager.groupComputeValue g = (g.elements.map additiveContrib).sum)
    ∧ GroupManager.groupComputeValue gDemo = 5
    ∧ GroupManager.groupComputeValue gDemoOn = 15 := by
  refine ⟨?_, ?_, ?_⟩
  · intro g hg
    simp [GroupManager.groupComputeValue, hg, foldl_additiveStep]
  · norm_num [GroupManager.groupComputeValue, Group.isRadioGroup,
      GroupManager.isRadioGroupOf, gDemo, chk5, chk10off,
      GroupManager.additiveStep, InputManager.getElementValue,
      InputManager.getToggleValue, InputManager.clampValue]
  · norm_num [GroupManager.groupComputeValue, Group.isRadioGroup,
      GroupManager.isRadioGroupOf, gDemoOn, chk5, chk10on, chk10off,
      GroupManager.additiveStep, InputManager.getElementValue,
      InputManager.getToggleValue, InputManager.clampValue]
    decide

/-- Witness for C7: the demo group is additive and its aggregate equals
the contribution sum. -/
theorem c7_additive_group_sum_witness :
    gDemo.isRadioGroup = false
    ∧ GroupManager.groupComputeValue gDemo = (gDemo.elements.map additiveContrib).sum :=
  ⟨by decide, c7_additive_group_sum.1 gDemo (by decide)⟩

/-- C8: within one recompute pass the formula cells are processed in
registration order against the live store: with F1 = `"x+1"` registered
before F2 = `"F1*2"`, the pass first computes F1 from the current value
of `x` and writes it back, then computes F2 from F1's just-updated value,
all in the same pass. -/
theorem c8_pass_registration_order_live (σ : Store) (v : ℚ)
    (h : σ ("x") = some (.fin v)) :
    AlphaCalc.calculate 4 [f1Cell, f2Cell] σ ("F1")
        = some (.fin (Util.roundTo 4 (v + 1)))
    ∧ AlphaCalc.calculate 4 [f1Cell, f2Cell] σ ("F2")
        = some (.fin (Util.roundTo 4 (Util.roundTo 4 (v + 1) * 2))) := by
  have e1 : FormulaEngine.evaluate 4 (some (.add (.var ("x")) (.lit 1))) σ
      = Util.roundTo 4 (v + 1) := by
    simp [FormulaEngine.evaluate, evalExpr, h, JNum.add]
  have s1 : calcStep 4 σ f1Cell
      = setStore σ ("F1") (.fin (Util.roundTo 4 (v + 1))) := by
    simp [calcStep, f1Cell, InputManager.setValue, e1]
  have e2 : FormulaEngine.evaluate 4 (some (.mul (.var ("F1")) (.lit 2)))
        (setStore σ ("F1") (.fin (Util.roundTo 4 (v + 1))))
      = Util.roundTo 4 (Util.roundTo 4 (v + 1) * 2) := by
    simp [FormulaEngine.evaluate, evalExpr, setStore, JNum.mul]
  have s2 : calcStep 4 (setStore σ ("F1") (.fin (Util.roundTo 4 (v + 1)))) f2Cell
      = setStore (setStore σ ("F1") (.fin (Util.roundTo 4 (v + 1)))) ("F2")
          (.fin (Util.roundTo 4 (Util.roundTo 4 (v + 1) * 2))) := by
    simp [calcStep, f2Cell, InputManager.setValue, e2]
  have hpass : AlphaCalc.calculate 4 [f1Cell, f2Cell] σ
      = setStore (setStore σ ("F1") (.fin (Util.roundTo 4 (v + 1)))) ("F2")
          (.fin (Util.roundTo 4 (Util.roundTo 4 (v + 1) * 2))) := by
    calc AlphaCalc.calculate 4 [f1Cell, f2Cell] σ
        = calcStep 4 (calcStep 4 σ f1Cell) f2Cell := rfl
      _ = _ := by rw [s1, s2]
  rw [hpass]
  constructor
  · simp [setStore]
  · simp [setStore]

/-- Witness for C8: with `x = 3`, the pass leaves F1 = round(3+1) and
F2 = round(round(3+1)·2). -/
theorem c8_pass_registration_order_live_witness :
    AlphaCalc.calculate 4 [f1Cell, f2Cell] xStore ("F1")
        = some (.fin (Util.roundTo 4 (3 + 1)))
    ∧ AlphaCalc.calculate 4 [f1Cell, f2Cell] xStore ("F2")
        = some (.fin (Util.roundTo 4 (Util.roundTo 4 (3 + 1) * 2))) :=
  c8_pass_registration_order_live xStore 3 rfl

/-- C9 counterexample: the recompute pass is not idempotent for every
store state.  With the circular formula cells F1 = `"F2+1"`, F2 = `"F1+1"`
and both cells holding 0, the first pass leaves F1 = 1 while the second
pass moves F1 to 3. -/
theorem c9_recompute_idempotent_counterexample :
    AlphaCalc.calculate 4 cycCells (AlphaCalc.calculate 4 cycCells cycStore) ("F1")
      ≠ AlphaCalc.calculate 4 cycCells cycStore ("F1") := by
  norm_num [AlphaCalc.calculate, cycCells, cycStore, calcStep,
    InputManager.setValue, setStore, FormulaEngine.evaluate, evalExpr,
    JNum.add, Util.roundTo, round_eq]
  decide

/-- C9 (amended): the recompute pass is idempotent — a second pass with no
intervening input change reproduces the same snapshot at every id —
provided the formula cells have pairwise distinct ids and no formula
references the id of a formula cell at or after its own position in
registration order (in particular no circular references). -/
theorem c9_recompute_idempotent_acyclic (d : Nat) (cells : List FormulaCell)
    (σ : Store) (hnd : (cells.map FormulaCell.cellId).Nodup)
    (hgo : goodOrder cells) (cellId : String) :
    AlphaCalc.calculate d cells (AlphaCalc.calculate d cells σ) cellId
      = AlphaCalc.calculate d cells σ cellId := by
  rw [calculate_idem d cells σ hnd hgo]

/-- Witness for the amended C9: the acyclic registration F1 = `"x+1"`
before F2 = `"F1*2"` satisfies the ordering condition and a second pass
reproduces F2's value. -/
theorem c9_recompute_idempotent_acyclic_witness :
    AlphaCalc.calculate 4 [f1Cell, f2Cell]
        (AlphaCalc.calculate 4 [f1Cell, f2Cell] xStore) ("F2")
      = AlphaCalc.calculate 4 [f1Cell, f2Cell] xStore ("F2") :=
  c9_recompute_idempotent_acyclic 4 [f1Cell, f2Cell] xStore
    (by decide) (by decide) ("F2")

end ACalc
